import Mathlib

/-!
Verification development for the vector-similarity-search worker.

The repository ships the worker's functional requirements, its database
schemas and the documented SQL/Drizzle queries inside
`src/test/index.spec.ts`, together with a mocked test suite; the generated
worker module itself is not committed.  The definitions below embed, in
order:

* the data model (the four tables of the documented schema);
* the Similarity Search Score query quoted verbatim in the test header
  (`select {similarity} from synth_data_prod where and(eq(topic, topic))
  order by similarity desc limit 1`);
* the batch embedding update (the `case when id = ... then vec end` shape
  of the documented example);
* the remaining stages of the pipeline, modelled from the specification
  where the worker source is absent, faithful to the mocked call sequence
  the test suite pins down.

Embeddings are modelled as lists of rationals; the store's vector-distance
primitive is an explicit parameter `dist`, since the specification treats
it as external.  Cosine similarity is `1 - dist a b`, exactly as in the
quoted query.
-/

/-- Row of `unique_messages`: deduplicated message content with a nullable
embedding vector (`id` primary key, `content` unique). -/
structure Message where
  id : Nat
  content : String
  embedding : Option (List ℚ)
deriving DecidableEq

/-- Row of `message_feed`: a sighting of a message at a timestamp (modelled
as an integer number of seconds). -/
structure FeedSighting where
  id : Nat
  timestamp : Int
  messageId : Nat
deriving DecidableEq

/-- Row of `synth_data_prod`: a pre-labelled reference item with a non-null
embedding. -/
structure ReferenceItem where
  id : Nat
  topic : String
  industry : String
  content : String
  embedding : List ℚ
deriving DecidableEq

/-- Row of `message_scores`: one row per `(message_id, topic, industry)`
with the nullable `main` and `similarity` real columns. -/
structure ScoreRow where
  topic : String
  industry : String
  main : Option ℚ
  similarity : Option ℚ
  messageId : Nat
deriving DecidableEq

/-- Computed score tuple produced by the scoring stage, one per persisted
`(message_id, topic, industry)` triple. -/
structure ScoreInput where
  messageId : Nat
  topic : String
  industry : String
  similarity : ℚ
deriving DecidableEq

/-- Store state: the four tables of the documented schema. -/
structure Store where
  messages : List Message
  sightings : List FeedSighting
  refItems : List ReferenceItem
  scores : List ScoreRow
deriving DecidableEq

/-- Maximum of a list of rationals, `none` on the empty list.  This is the
shape of an `order by x desc limit 1` projection. -/
def listMax : List ℚ → Option ℚ
  | [] => none
  | x :: xs =>
    match listMax xs with
    | none => some x
    | some y => some (max x y)

/-- Dot product of two rational vectors (used as a concrete instance of the
store's vector-distance primitive in witnesses). -/
def dotQ : List ℚ → List ℚ → ℚ
  | x :: xs, y :: ys => x * y + dotQ xs ys
  | _, _ => 0

/-- Number of seconds in one day, the recency window of the selector. -/
def daySeconds : Int := 86400

/-- Modelled from the spec: the Message Selector's joined, filtered and
projected rows before the 100-row cap.  The worker module is absent from
the repository; this follows spec.md section 4.1 and the header of
`src/test/index.spec.ts`: inner-join `unique_messages` with `message_feed`
on `message_id`, keep rows whose sighting `timestamp` is less than one day
old, whose `embedding` is null and whose `content` is non-empty, project
only `(id, content)` (never the sighting timestamp) and take distinct
rows. -/
def eligibleRows (now : Int) (ms : List Message) (ss : List FeedSighting) :
    List (Nat × String) :=
  (((ms.flatMap (fun m =>
      (ss.filter (fun s =>
        s.messageId == m.id && decide (now - daySeconds < s.timestamp))).map
          (fun s => (m, s)))).filter
    (fun p => p.1.embedding.isNone && !(p.1.content == ""))).map
      (fun p => (p.1.id, p.1.content))).dedup

/-- Modelled from the spec: the Message Selector.  The distinct eligible
`(id, content)` rows, capped at 100 as the test suite pins
(`limit(100)`). -/
def selectMessages (now : Int) (ms : List Message) (ss : List FeedSighting) :
    List (Nat × String) :=
  (eligibleRows now ms ss).take 100

/-- The Similarity Search Score query documented in
`src/test/index.spec.ts` lines 17-28: select
`1 - cosineDistance(table.embedding, embedding)` from `synth_data_prod`
`where(and(eq(table.topic, topic)))`, ordered by similarity descending,
`limit 1`.  Note the where-clause restricts rows by `topic` only; the
`industry` column does not appear.  `dist` is the store's cosine-distance
primitive, external per the spec. -/
def similarityQuery (dist : List ℚ → List ℚ → ℚ) (table : List ReferenceItem)
    (embedding : List ℚ) (topic : String) : Option ℚ :=
  listMax ((table.filter (fun r => r.topic == topic)).map
    (fun r => 1 - dist r.embedding embedding))

/-- Stated from the spec's words, for comparison with `similarityQuery`:
the maximum cosine similarity between an embedding and all reference items
sharing the exact `(topic, industry)` pair (spec.md section 3 invariant). -/
def specCategoryBest (dist : List ℚ → List ℚ → ℚ) (table : List ReferenceItem)
    (embedding : List ℚ) (topic industry : String) : Option ℚ :=
  listMax ((table.filter (fun r => r.topic == topic && r.industry == industry)).map
    (fun r => 1 - dist r.embedding embedding))

/-- Modelled from the spec: the distinct `(topic, industry)` pairs fetched
from `synth_data_prod` at run time (`selectDistinct({topic, industry})` in
the test suite). -/
def distinctPairs (refs : List ReferenceItem) : List (String × String) :=
  (refs.map (fun r => (r.topic, r.industry))).dedup

/-- Modelled from the spec: the embedding stage.  Sends the selected
contents to the AI capability as one ordered batch; a thrown error is the
`none` result, and a mismatched-length response is treated as a failure as
well (spec.md section 7, `EmbeddingServiceError`).  On success pairs each
selected message id with the vector at its input position. -/
def embedBatch (ai : List String → Option (List (List ℚ)))
    (selected : List (Nat × String)) : Option (List (Nat × List ℚ)) :=
  match ai (selected.map Prod.snd) with
  | none => none
  | some vecs =>
    if vecs.length = selected.length then
      some ((selected.zip vecs).map (fun p => (p.1.1, p.2)))
    else none

/-- Batch embedding update, after the documented example in
`src/test/index.spec.ts` lines 30-46: `update unique_messages set embedding
= (case when id = i then v ... end) where id in ids` — each message whose
id carries a computed vector receives it, all others are untouched. -/
def writeEmbeddings (pairs : List (Nat × List ℚ)) (ms : List Message) :
    List Message :=
  ms.map (fun m =>
    match pairs.lookup m.id with
    | some v => { m with embedding := some v }
    | none => m)

/-- Modelled from the spec: the scoring stage.  For every message of the
batch and every distinct `(topic, industry)` pair, one invocation of the
documented Similarity Search Score query, exactly the call sequence the
test suite mocks (`src/test/index.spec.ts` lines 276-293: one mocked
result per message-topic-industry combination).  A category whose query
returns no row contributes no score tuple. -/
def computeScores (dist : List ℚ → List ℚ → ℚ) (pairs : List (Nat × List ℚ))
    (cats : List (String × String)) (refs : List ReferenceItem) :
    List ScoreInput :=
  pairs.flatMap (fun mv =>
    cats.filterMap (fun c =>
      (similarityQuery dist refs mv.2 c.1).map
        (fun s => ⟨mv.1, c.1, c.2, s⟩)))

/-- Key equality of a score row against an incoming tuple: the
`(message_id, topic, industry)` unique constraint. -/
def sameKey (r : ScoreRow) (inc : ScoreInput) : Bool :=
  r.messageId == inc.messageId && r.topic == inc.topic && r.industry == inc.industry

/-- Modelled from the spec: the conflict-resolution rule of the score
upsert (spec.md section 4.4): always overwrite `similarity`; set `main` to
the new similarity exactly when the existing `main` is null, otherwise
leave it untouched. -/
def applyConflict (r : ScoreRow) (inc : ScoreInput) : ScoreRow :=
  { r with similarity := some inc.similarity,
           main := some (r.main.getD inc.similarity) }

/-- Modelled from the spec: the row inserted when no
`(message_id, topic, industry)` row exists yet.  `similarity` is the
computed score and `main` is copied from it, `main` being null before the
insert (spec.md sections 4.4 and 8). -/
def insertRow (inc : ScoreInput) : ScoreRow :=
  { topic := inc.topic, industry := inc.industry, main := some inc.similarity,
    similarity := some inc.similarity, messageId := inc.messageId }

/-- Modelled from the spec: upsert of one score tuple into
`message_scores`, keyed by `(message_id, topic, industry)`
(`onConflictDoUpdate` in the test suite's mock). -/
def upsertScore (rows : List ScoreRow) (inc : ScoreInput) : List ScoreRow :=
  if rows.any (fun r => sameKey r inc) then
    rows.map (fun r => if sameKey r inc then applyConflict r inc else r)
  else
    rows ++ [insertRow inc]

/-- Modelled from the spec: the batched score write — every computed tuple
of the run upserted into `message_scores`. -/
def writeScores (rows : List ScoreRow) (batch : List ScoreInput) :
    List ScoreRow :=
  batch.foldl upsertScore rows

/-- Projection of a score table to its keys and `main` values, used to
state that a write leaves every row's `main` unchanged. -/
def mains (rows : List ScoreRow) : List (Nat × String × String × Option ℚ) :=
  rows.map (fun r => (r.messageId, r.topic, r.industry, r.main))

/-- Observable events of one pipeline invocation: connection lifecycle,
the AI capability call, each similarity query issued, and the two store
writes. -/
inductive Event where
  | connect : Event
  | close : Event
  | aiCall : List String → Event
  | simQuery : List ℚ → String → Event
  | updateEmbeddings : List (Nat × List ℚ) → Event
  | insertScores : List ScoreInput → Event
deriving DecidableEq

/-- Event recogniser: the AI capability call. -/
def Event.isAiCall : Event → Bool
  | .aiCall _ => true
  | _ => false

/-- Event recogniser: a similarity query. -/
def Event.isSimQuery : Event → Bool
  | .simQuery _ _ => true
  | _ => false

/-- Event recogniser: the connection close. -/
def Event.isClose : Event → Bool
  | .close => true
  | _ => false

/-- Event recogniser: the connection open. -/
def Event.isConnect : Event → Bool
  | .connect => true
  | _ => false

/-- Event recogniser: a store write (embedding update or score insert). -/
def Event.isWrite : Event → Bool
  | .updateEmbeddings _ => true
  | .insertScores _ => true
  | _ => false

/-- Outcome of one pipeline invocation. -/
inductive RunResult where
  | success : RunResult
  | failure : RunResult
deriving DecidableEq

/-- Modelled from the spec: the body of one pipeline invocation between
connection open and close — Selecting, Embedding, Scoring, Writing
(spec.md section 4.5).  An empty selection short-circuits to success with
no further action; an embedding failure aborts the run with no store
modification. -/
def runBody (dist : List ℚ → List ℚ → ℚ)
    (ai : List String → Option (List (List ℚ))) (now : Int) (db : Store) :
    RunResult × List Event × Store :=
  let selected := selectMessages now db.messages db.sightings
  if selected.isEmpty then
    (RunResult.success, [], db)
  else
    match embedBatch ai selected with
    | none => (RunResult.failure, [Event.aiCall (selected.map Prod.snd)], db)
    | some pairs =>
      let cats := distinctPairs db.refItems
      let simEvents := pairs.flatMap (fun mv =>
        cats.map (fun c => Event.simQuery mv.2 c.1))
      let scoreRows := computeScores dist pairs cats db.refItems
      let db2 : Store :=
        { db with messages := writeEmbeddings pairs db.messages,
                  scores := writeScores db.scores scoreRows }
      (RunResult.success,
        Event.aiCall (selected.map Prod.snd)
          :: Event.updateEmbeddings pairs
          :: simEvents ++ [Event.insertScores scoreRows],
        db2)

/-- Modelled from the spec: one pipeline invocation.  The store connection
is acquired before the body and released after it on every exit path —
the scoped-acquisition (finally-guaranteed cleanup) discipline of spec.md
sections 4.5 and 5. -/
def runPipeline (dist : List ℚ → List ℚ → ℚ)
    (ai : List String → Option (List (List ℚ))) (now : Int) (db : Store) :
    RunResult × List Event × Store :=
  let body := runBody dist ai now db
  (body.1, Event.connect :: (body.2.1 ++ [Event.close]), body.2.2)

/-- Concrete reference table: one topic `t` carried by two industries `a`
and `b`, with orthogonal unit embeddings. -/
def refsEx : List ReferenceItem :=
  [⟨1, "t", "a", "ra", [0, 1]⟩, ⟨2, "t", "b", "rb", [1, 0]⟩]

/-- Concrete messages: two unprocessed messages with null embeddings. -/
def msgsEx : List Message := [⟨1, "m1", none⟩, ⟨2, "m2", none⟩]

/-- Concrete feed sightings: one recent sighting per message. -/
def sightEx : List FeedSighting := [⟨1, 0, 1⟩, ⟨2, 0, 2⟩]

/-- Concrete store for the counterexample runs. -/
def storeEx : Store := ⟨msgsEx, sightEx, refsEx, []⟩

/-- Concrete distance primitive: `1 - dot product`, so that cosine
similarity `1 - dist` is the dot product — exact cosine similarity on the
unit vectors used here. -/
def distEx : List ℚ → List ℚ → ℚ := fun x y => 1 - dotQ x y

/-- Concrete AI capability: `m1` embeds to `[1, 0]`, anything else to
`[0, 1]`. -/
def aiEx : List String → Option (List (List ℚ)) :=
  fun ts => some (ts.map (fun t => if t = "m1" then [1, 0] else [0, 1]))

/-- Concrete clock for the counterexample runs. -/
def nowEx : Int := 1

/-- Membership characterisation of the pre-cap eligible rows: exactly the
projections of messages with a null embedding, non-empty content and a
recent sighting. -/
theorem mem_eligibleRows {now : Int} {ms : List Message} {ss : List FeedSighting}
    {p : Nat × String} :
    p ∈ eligibleRows now ms ss ↔
      ∃ m ∈ ms, m.id = p.1 ∧ m.content = p.2 ∧ m.embedding = none ∧
        m.content ≠ "" ∧
        ∃ s ∈ ss, s.messageId = m.id ∧ now - daySeconds < s.timestamp := by
  simp only [eligibleRows, List.mem_dedup, List.mem_map, List.mem_filter,
    List.mem_flatMap, Bool.and_eq_true, beq_iff_eq, decide_eq_true_eq,
    Option.isNone_iff_eq_none, Bool.not_eq_true', beq_eq_false_iff_ne]
  constructor
  · rintro ⟨q, ⟨⟨m, hm, s, ⟨hs, hsid, hst⟩, rfl⟩, hemb, hcont⟩, rfl⟩
    exact ⟨m, hm, rfl, rfl, hemb, hcont, s, hs, hsid, hst⟩
  · rintro ⟨m, hm, hid, hcontent, hemb, hcont, s, hs, hsid, hst⟩
    exact ⟨(m, s), ⟨⟨m, hm, s, ⟨hs, hsid, hst⟩, rfl⟩, hemb, hcont⟩,
      by simp [hid, hcontent]⟩

/-- Membership in the selector output implies eligibility. -/
theorem mem_selectMessages {now : Int} {ms : List Message}
    {ss : List FeedSighting} {p : Nat × String}
    (h : p ∈ selectMessages now ms ss) :
    ∃ m ∈ ms, m.id = p.1 ∧ m.content = p.2 ∧ m.embedding = none ∧
      m.content ≠ "" ∧
      ∃ s ∈ ss, s.messageId = m.id ∧ now - daySeconds < s.timestamp :=
  mem_eligibleRows.mp (List.mem_of_mem_take h)

/-- The selector output has no duplicate rows. -/
theorem selectMessages_nodup (now : Int) (ms : List Message)
    (ss : List FeedSighting) : (selectMessages now ms ss).Nodup :=
  (List.take_sublist _ _).nodup (List.nodup_dedup _)

/-- The selector output never exceeds 100 rows. -/
theorem selectMessages_length_le (now : Int) (ms : List Message)
    (ss : List FeedSighting) : (selectMessages now ms ss).length ≤ 100 := by
  simp [selectMessages]

/-- C5: the Message Selector returns the distinct set of messages whose
embedding is null, whose content is non-empty and which have at least one
feed sighting within the last 24 hours, capped at 100 rows and projecting
only message id and content — so no row, and in particular no message with
several recent sightings, appears more than once; and whenever the
eligible set fits under the cap, every eligible message does appear. -/
theorem selector_contract (now : Int) (ms : List Message)
    (ss : List FeedSighting)
    (hcap : (eligibleRows now ms ss).length ≤ 100) :
    (selectMessages now ms ss).Nodup ∧
    (selectMessages now ms ss).length ≤ 100 ∧
    (∀ p ∈ selectMessages now ms ss,
      ∃ m ∈ ms, m.id = p.1 ∧ m.content = p.2 ∧ m.embedding = none ∧
        m.content ≠ "" ∧
        ∃ s ∈ ss, s.messageId = m.id ∧ now - daySeconds < s.timestamp) ∧
    ∀ m ∈ ms, m.embedding = none → m.content ≠ "" →
      (∃ s ∈ ss, s.messageId = m.id ∧ now - daySeconds < s.timestamp) →
      (m.id, m.content) ∈ selectMessages now ms ss := by
  refine ⟨selectMessages_nodup now ms ss, selectMessages_length_le now ms ss,
    fun p hp => mem_selectMessages hp, fun m hm hemb hcont hs => ?_⟩
  have hall : selectMessages now ms ss = eligibleRows now ms ss := by
    simp [selectMessages, List.take_of_length_le hcap]
  rw [hall, mem_eligibleRows]
  exact ⟨m, hm, rfl, rfl, hemb, hcont, hs⟩

/-- Witness for `selector_contract` at a concrete instance: one message
with two recent sightings and one stale sighting. -/
theorem selector_contract_witness :
    (eligibleRows 100000 [⟨5, "hello", none⟩, ⟨6, "", none⟩]
        [⟨1, 99000, 5⟩, ⟨2, 98000, 5⟩, ⟨3, 0, 5⟩, ⟨4, 99000, 6⟩]).length ≤ 100 ∧
      ((selectMessages 100000 [⟨5, "hello", none⟩, ⟨6, "", none⟩]
          [⟨1, 99000, 5⟩, ⟨2, 98000, 5⟩, ⟨3, 0, 5⟩, ⟨4, 99000, 6⟩]).Nodup ∧
        (selectMessages 100000 [⟨5, "hello", none⟩, ⟨6, "", none⟩]
            [⟨1, 99000, 5⟩, ⟨2, 98000, 5⟩, ⟨3, 0, 5⟩, ⟨4, 99000, 6⟩]).length ≤ 100 ∧
        (∀ p ∈ selectMessages 100000 [⟨5, "hello", none⟩, ⟨6, "", none⟩]
            [⟨1, 99000, 5⟩, ⟨2, 98000, 5⟩, ⟨3, 0, 5⟩, ⟨4, 99000, 6⟩],
          ∃ m ∈ [⟨5, "hello", none⟩, (⟨6, "", none⟩ : Message)],
            m.id = p.1 ∧ m.content = p.2 ∧ m.embedding = none ∧
            m.content ≠ "" ∧
            ∃ s ∈ [⟨1, 99000, 5⟩, ⟨2, 98000, 5⟩, ⟨3, 0, 5⟩,
                (⟨4, 99000, 6⟩ : FeedSighting)],
              s.messageId = m.id ∧ 100000 - daySeconds < s.timestamp) ∧
        ∀ m ∈ [⟨5, "hello", none⟩, (⟨6, "", none⟩ : Message)],
          m.embedding = none → m.content ≠ "" →
          (∃ s ∈ [⟨1, 99000, 5⟩, ⟨2, 98000, 5⟩, ⟨3, 0, 5⟩,
              (⟨4, 99000, 6⟩ : FeedSighting)],
            s.messageId = m.id ∧ 100000 - daySeconds < s.timestamp) →
          (m.id, m.content) ∈ selectMessages 100000
            [⟨5, "hello", none⟩, ⟨6, "", none⟩]
            [⟨1, 99000, 5⟩, ⟨2, 98000, 5⟩, ⟨3, 0, 5⟩, ⟨4, 99000, 6⟩]) :=
  ⟨by decide, selector_contract 100000 _ _ (by decide)⟩

/-- Shape analysis of one pipeline body: empty-selection short-circuit,
embedding failure, or the full successful run. -/
theorem runBody_cases (dist : List ℚ → List ℚ → ℚ)
    (ai : List String → Option (List (List ℚ))) (now : Int) (db : Store) :
    (selectMessages now db.messages db.sightings = [] ∧
      runBody dist ai now db = (RunResult.success, [], db)) ∨
    (selectMessages now db.messages db.sightings ≠ [] ∧
      embedBatch ai (selectMessages now db.messages db.sightings) = none ∧
      runBody dist ai now db = (RunResult.failure,
        [Event.aiCall ((selectMessages now db.messages db.sightings).map Prod.snd)],
        db)) ∨
    ∃ pairs, selectMessages now db.messages db.sightings ≠ [] ∧
      embedBatch ai (selectMessages now db.messages db.sightings) = some pairs ∧
      runBody dist ai now db = (RunResult.success,
        Event.aiCall ((selectMessages now db.messages db.sightings).map Prod.snd)
          :: Event.updateEmbeddings pairs
          :: ((pairs.flatMap (fun mv => (distinctPairs db.refItems).map
                (fun c => Event.simQuery mv.2 c.1)))
            ++ [Event.insertScores
                  (computeScores dist pairs (distinctPairs db.refItems) db.refItems)]),
        { db with
            messages := writeEmbeddings pairs db.messages,
            scores := writeScores db.scores
              (computeScores dist pairs (distinctPairs db.refItems) db.refItems) }) := by
  by_cases h : selectMessages now db.messages db.sightings = []
  · exact Or.inl ⟨h, by simp [runBody, h]⟩
  · cases hab : embedBatch ai (selectMessages now db.messages db.sightings) with
    | none =>
      exact Or.inr (Or.inl ⟨h, rfl, by simp [runBody, h, hab]⟩)
    | some pairs =>
      exact Or.inr (Or.inr ⟨pairs, h, rfl, by simp [runBody, h, hab]⟩)

/-- No event of the pipeline body is a connection open or close: those are
emitted only by the scoped wrapper. -/
theorem runBody_no_conn (dist : List ℚ → List ℚ → ℚ)
    (ai : List String → Option (List (List ℚ))) (now : Int) (db : Store) :
    ∀ e ∈ (runBody dist ai now db).2.1, e.isClose = false ∧ e.isConnect = false := by
  intro e he
  rcases runBody_cases dist ai now db with ⟨h, heq⟩ | ⟨h, hab, heq⟩ |
    ⟨pairs, h, hab, heq⟩ <;> rw [heq] at he
  · simp at he
  · simp only [List.mem_singleton] at he
    subst he
    exact ⟨rfl, rfl⟩
  · simp only [List.mem_cons, List.mem_append, List.mem_flatMap, List.mem_map,
      List.mem_singleton, List.not_mem_nil, or_false] at he
    rcases he with rfl | rfl | ⟨mv, _, c, _, rfl⟩ | rfl <;> exact ⟨rfl, rfl⟩

/-- C7: every pipeline invocation opens the store connection first and
closes it exactly once as its final action, on every exit path of the
model (normal completion, empty-selection short-circuit, embedding
failure). -/
theorem connection_scoped (dist : List ℚ → List ℚ → ℚ)
    (ai : List String → Option (List (List ℚ))) (now : Int) (db : Store) :
    (runPipeline dist ai now db).2.1.head? = some Event.connect ∧
    (runPipeline dist ai now db).2.1.getLast? = some Event.close ∧
    (runPipeline dist ai now db).2.1.countP Event.isClose = 1 ∧
    (runPipeline dist ai now db).2.1.countP Event.isConnect = 1 := by
  refine ⟨rfl, ?_, ?_, ?_⟩
  · show (Event.connect :: ((runBody dist ai now db).2.1 ++ [Event.close])).getLast?
      = some Event.close
    rw [← List.cons_append, List.getLast?_concat]
  · have h0 : (runBody dist ai now db).2.1.countP Event.isClose = 0 :=
      List.countP_eq_zero.mpr (fun e he => by
        simp [(runBody_no_conn dist ai now db e he).1])
    show (Event.connect :: ((runBody dist ai now db).2.1 ++ [Event.close])).countP
      Event.isClose = 1
    simp [List.countP_cons, List.countP_append, h0, Event.isClose]
  · have h0 : (runBody dist ai now db).2.1.countP Event.isConnect = 0 :=
      List.countP_eq_zero.mpr (fun e he => by
        simp [(runBody_no_conn dist ai now db e he).2])
    show (Event.connect :: ((runBody dist ai now db).2.1 ++ [Event.close])).countP
      Event.isConnect = 1
    simp [List.countP_cons, List.countP_append, h0, Event.isConnect]

/-- C9: when the selector yields no eligible messages, the run completes
successfully, the store is untouched, and the trace is just the connection
open and close — no embedding call and no write. -/
theorem empty_selection_success (dist : List ℚ → List ℚ → ℚ)
    (ai : List String → Option (List (List ℚ))) (now : Int) (db : Store)
    (hsel : selectMessages now db.messages db.sightings = []) :
    runPipeline dist ai now db = (RunResult.success, [Event.connect, Event.close], db) := by
  simp [runPipeline, runBody, hsel]

/-- Witness for `empty_selection_success`: the empty store selects nothing
and the run is a successful no-op. -/
theorem empty_selection_success_witness :
    selectMessages nowEx ([] : List Message) ([] : List FeedSighting) = [] ∧
    runPipeline distEx aiEx nowEx ⟨[], [], [], []⟩
      = (RunResult.success, [Event.connect, Event.close], ⟨[], [], [], []⟩) :=
  ⟨by decide, empty_selection_success distEx aiEx nowEx ⟨[], [], [], []⟩ (by decide)⟩

/-- C8: if the embedding capability fails (throws, or returns a
mismatched-length result), the run aborts as a failure and neither the
messages' embedding column nor the classification scores are modified. -/
theorem embedding_failure_aborts (dist : List ℚ → List ℚ → ℚ)
    (ai : List String → Option (List (List ℚ))) (now : Int) (db : Store)
    (hne : selectMessages now db.messages db.sightings ≠ [])
    (hai : embedBatch ai (selectMessages now db.messages db.sightings) = none) :
    (runPipeline dist ai now db).1 = RunResult.failure ∧
    (runPipeline dist ai now db).2.2 = db := by
  constructor <;> simp [runPipeline, runBody, hne, hai]

/-- Witness for `embedding_failure_aborts`: on the concrete store with a
failing AI capability the run fails and the store is unchanged. -/
theorem embedding_failure_aborts_witness :
    selectMessages nowEx storeEx.messages storeEx.sightings ≠ [] ∧
    embedBatch (fun _ => none) (selectMessages nowEx storeEx.messages storeEx.sightings) = none ∧
    ((runPipeline distEx (fun _ => none) nowEx storeEx).1 = RunResult.failure ∧
      (runPipeline distEx (fun _ => none) nowEx storeEx).2.2 = storeEx) :=
  ⟨by decide, rfl,
    embedding_failure_aborts distEx (fun _ => none) nowEx storeEx (by decide) rfl⟩

/-- C4: when the score upsert hits an existing `(message_id, topic,
industry)` row, `similarity` is always overwritten with the new value, and
`main` becomes the new similarity exactly when the stored `main` was null
while a non-null stored `main` is left unchanged. -/
theorem upsert_conflict_rule (rows : List ScoreRow) (inc : ScoreInput)
    (i : Nat) (h : i < rows.length) (hk : sameKey rows[i] inc = true) :
    ∃ h2 : i < (upsertScore rows inc).length,
      ((upsertScore rows inc).get ⟨i, h2⟩).similarity = some inc.similarity ∧
      ((upsertScore rows inc).get ⟨i, h2⟩).main
        = some ((rows[i].main).getD inc.similarity) := by
  have hany : rows.any (fun r => sameKey r inc) = true :=
    List.any_eq_true.mpr ⟨rows[i], List.getElem_mem h, hk⟩
  have hup : upsertScore rows inc
      = rows.map (fun r => if sameKey r inc then applyConflict r inc else r) := by
    simp [upsertScore, hany]
  have h2 : i < (upsertScore rows inc).length := by
    rw [hup, List.length_map]
    exact h
  have hq : (upsertScore rows inc)[i]? = some (applyConflict rows[i] inc) := by
    rw [hup, List.getElem?_map, List.getElem?_eq_getElem h]
    simp [hk]
  have hget : (upsertScore rows inc).get ⟨i, h2⟩ = applyConflict rows[i] inc := by
    have h3 := (List.getElem?_eq_getElem h2).symm.trans hq
    simpa [List.get_eq_getElem] using Option.some.inj h3
  exact ⟨h2, by rw [hget]; exact rfl, by rw [hget]; exact rfl⟩

/-- Witness for `upsert_conflict_rule`: a stored row with null `main` at
position 0 receives the new similarity in both columns. -/
theorem upsert_conflict_rule_witness :
    ∃ h : 0 < ([⟨"t", "a", none, none, 7⟩] : List ScoreRow).length,
      sameKey (([⟨"t", "a", none, none, 7⟩] : List ScoreRow).get ⟨0, h⟩)
        ⟨7, "t", "a", (1 : ℚ) / 2⟩ = true ∧
      ∃ h2 : 0 < (upsertScore [⟨"t", "a", none, none, 7⟩] ⟨7, "t", "a", 1 / 2⟩).length,
        ((upsertScore [⟨"t", "a", none, none, 7⟩] ⟨7, "t", "a", 1 / 2⟩).get
            ⟨0, h2⟩).similarity = some ((1 : ℚ) / 2) ∧
        ((upsertScore [⟨"t", "a", none, none, 7⟩] ⟨7, "t", "a", 1 / 2⟩).get
            ⟨0, h2⟩).main
          = some ((([⟨"t", "a", none, none, 7⟩] : List ScoreRow).get
              ⟨0, by decide⟩).main.getD (1 / 2)) :=
  ⟨by decide, by decide,
    upsert_conflict_rule [⟨"t", "a", none, none, 7⟩] ⟨7, "t", "a", 1 / 2⟩ 0
      (by decide) (by decide)⟩

/-- The conflict rule never changes the key fields of a row. -/
theorem sameKey_applyConflict (r : ScoreRow) (inc j : ScoreInput) :
    sameKey (applyConflict r inc) j = sameKey r j := rfl

/-- After an upsert, some stored row carries the incoming key. -/
theorem upsert_key_present (rows : List ScoreRow) (inc : ScoreInput) :
    ∃ r ∈ upsertScore rows inc, sameKey r inc = true := by
  unfold upsertScore
  split
  · rename_i hany
    obtain ⟨r, hr, hk⟩ := List.any_eq_true.mp hany
    refine ⟨if sameKey r inc = true then applyConflict r inc else r,
      List.mem_map_of_mem _ hr, ?_⟩
    rw [if_pos hk, sameKey_applyConflict]
    exact hk
  · exact ⟨insertRow inc, List.mem_append_right _ (List.mem_singleton.mpr rfl),
      by simp [sameKey, insertRow]⟩

/-- After an upsert, every stored row carrying the incoming key has a
non-null `main`. -/
theorem upsert_key_main_some (rows : List ScoreRow) (inc : ScoreInput) :
    ∀ r ∈ upsertScore rows inc, sameKey r inc = true → r.main.isSome := by
  intro r hr hk
  unfold upsertScore at hr
  split at hr
  · rcases List.mem_map.mp hr with ⟨r0, hr0, hre⟩
    by_cases hk0 : sameKey r0 inc = true
    · rw [if_pos hk0] at hre
      subst hre
      simp [applyConflict]
    · rw [if_neg hk0] at hre
      subst hre
      exact absurd hk hk0
  · rename_i hany
    rcases List.mem_append.mp hr with hr1 | hr2
    · exact absurd (List.any_eq_true.mpr ⟨r, hr1, hk⟩) hany
    · rw [List.mem_singleton.mp hr2]
      simp [insertRow]

/-- An upsert preserves the presence of any key. -/
theorem upsert_key_present_mono (rows : List ScoreRow) (inc j : ScoreInput)
    (hj : ∃ r ∈ rows, sameKey r j = true) :
    ∃ r ∈ upsertScore rows inc, sameKey r j = true := by
  obtain ⟨r, hr, hk⟩ := hj
  unfold upsertScore
  split
  · refine ⟨if sameKey r inc = true then applyConflict r inc else r,
      List.mem_map_of_mem _ hr, ?_⟩
    by_cases hk0 : sameKey r inc = true
    · rw [if_pos hk0, sameKey_applyConflict]
      exact hk
    · rw [if_neg hk0]
      exact hk
  · exact ⟨r, List.mem_append_left _ hr, hk⟩

/-- An upsert preserves non-nullness of `main` at any key. -/
theorem upsert_main_some_mono (rows : List ScoreRow) (inc j : ScoreInput)
    (hj : ∀ r ∈ rows, sameKey r j = true → r.main.isSome) :
    ∀ r ∈ upsertScore rows inc, sameKey r j = true → r.main.isSome := by
  intro r hr hk
  unfold upsertScore at hr
  split at hr
  · rcases List.mem_map.mp hr with ⟨r0, hr0, hre⟩
    by_cases hk0 : sameKey r0 inc = true
    · rw [if_pos hk0] at hre
      subst hre
      simp [applyConflict]
    · rw [if_neg hk0] at hre
      subst hre
      exact hj r0 hr0 hk
  · rcases List.mem_append.mp hr with hr1 | hr2
    · exact hj r hr1 hk
    · rw [List.mem_singleton.mp hr2]
      simp [insertRow]

/-- An upsert whose key is already present with a non-null `main` changes
no row's key or `main`. -/
theorem upsert_mains_eq (rows : List ScoreRow) (inc : ScoreInput)
    (hp : ∃ r ∈ rows, sameKey r inc = true)
    (hs : ∀ r ∈ rows, sameKey r inc = true → r.main.isSome) :
    mains (upsertScore rows inc) = mains rows := by
  have hany : rows.any (fun r => sameKey r inc) = true := by
    obtain ⟨r, hr, hk⟩ := hp
    exact List.any_eq_true.mpr ⟨r, hr, hk⟩
  rw [upsertScore, if_pos hany, mains, mains, List.map_map]
  apply List.map_congr_left
  intro r hr
  by_cases hk0 : sameKey r inc = true
  · obtain ⟨m, hm⟩ := Option.isSome_iff_exists.mp (hs r hr hk0)
    simp [Function.comp, hk0, applyConflict, hm]
  · simp [Function.comp, hk0]

/-- Key presence with non-null `main` is preserved by a whole batched
write. -/
theorem writeScores_pres (batch : List ScoreInput) :
    ∀ (rows : List ScoreRow) (j : ScoreInput),
      (∃ r ∈ rows, sameKey r j = true) →
      (∀ r ∈ rows, sameKey r j = true → r.main.isSome) →
      (∃ r ∈ writeScores rows batch, sameKey r j = true) ∧
        ∀ r ∈ writeScores rows batch, sameKey r j = true → r.main.isSome := by
  induction batch with
  | nil => exact fun rows j hp hs => ⟨hp, hs⟩
  | cons inc batch ih =>
    intro rows j hp hs
    simp only [writeScores, List.foldl_cons]
    exact ih (upsertScore rows inc) j
      (upsert_key_present_mono rows inc j hp)
      (upsert_main_some_mono rows inc j hs)

/-- After a batched write, every key of the batch is present with a
non-null `main`. -/
theorem writeScores_establishes (batch : List ScoreInput) :
    ∀ (rows : List ScoreRow) (inc : ScoreInput), inc ∈ batch →
      (∃ r ∈ writeScores rows batch, sameKey r inc = true) ∧
        ∀ r ∈ writeScores rows batch, sameKey r inc = true → r.main.isSome := by
  induction batch with
  | nil => exact fun rows inc hmem => absurd hmem (List.not_mem_nil inc)
  | cons j batch ih =>
    intro rows inc hmem
    rcases List.mem_cons.mp hmem with rfl | hmem2
    · simp only [writeScores, List.foldl_cons]
      exact writeScores_pres batch (upsertScore rows inc) inc
        (upsert_key_present rows inc) (upsert_key_main_some rows inc)
    · simp only [writeScores, List.foldl_cons]
      exact ih (upsertScore rows j) inc hmem2

/-- A batched write over keys that are all present with non-null `main`
leaves every row's key and `main` unchanged. -/
theorem writeScores_mains_eq (batch : List ScoreInput) :
    ∀ rows : List ScoreRow,
      (∀ inc ∈ batch, (∃ r ∈ rows, sameKey r inc = true) ∧
        ∀ r ∈ rows, sameKey r inc = true → r.main.isSome) →
      mains (writeScores rows batch) = mains rows := by
  induction batch with
  | nil => exact fun rows _ => rfl
  | cons inc batch ih =>
    intro rows hall
    have h1 := hall inc (List.mem_cons_self inc batch)
    simp only [writeScores, List.foldl_cons]
    have h2 : mains (writeScores (upsertScore rows inc) batch)
        = mains (upsertScore rows inc) := by
      refine ih (upsertScore rows inc) (fun j hj => ?_)
      have h3 := hall j (List.mem_cons_of_mem inc hj)
      exact ⟨upsert_key_present_mono rows inc j h3.1,
        upsert_main_some_mono rows inc j h3.2⟩
    show mains (writeScores (upsertScore rows inc) batch) = mains rows
    rw [h2, upsert_mains_eq rows inc h1.1 h1.2]

/-- C10: running the batched score write twice with identical input is
idempotent with respect to `main` — after the first write has set `main`
at every written key, the second identical write leaves every row's key
and `main` value unchanged. -/
theorem score_write_idempotent_main (rows : List ScoreRow)
    (batch : List ScoreInput) :
    mains (writeScores (writeScores rows batch) batch)
      = mains (writeScores rows batch) :=
  writeScores_mains_eq batch (writeScores rows batch)
    (fun inc hmem => writeScores_establishes batch rows inc hmem)

/-- Membership characterisation of the computed score tuples. -/
theorem mem_computeScores {dist : List ℚ → List ℚ → ℚ}
    {pairs : List (Nat × List ℚ)} {cats : List (String × String)}
    {refs : List ReferenceItem} {r : ScoreInput} :
    r ∈ computeScores dist pairs cats refs ↔
      ∃ mv ∈ pairs, ∃ c ∈ cats,
        similarityQuery dist refs mv.2 c.1 = some r.similarity ∧
        r.messageId = mv.1 ∧ r.topic = c.1 ∧ r.industry = c.2 := by
  simp only [computeScores, List.mem_flatMap, List.mem_filterMap,
    Option.map_eq_some']
  constructor
  · rintro ⟨mv, hmv, c, hc, s, hs, rfl⟩
    exact ⟨mv, hmv, c, hc, hs, rfl, rfl, rfl⟩
  · rintro ⟨mv, hmv, c, hc, hs, h1, h2, h3⟩
    refine ⟨mv, hmv, c, hc, r.similarity, hs, ?_⟩
    cases r
    simp only at h1 h2 h3
    rw [h1, h2, h3]

/-- C2: the best-match similarity lookup restricts reference rows only by
equality on `topic` — relabelling industries of the reference table leaves
the query untouched — so for a fixed message and topic, every industry
paired with that topic receives the same similarity value. -/
theorem similarity_query_topic_only (dist : List ℚ → List ℚ → ℚ)
    (refs : List ReferenceItem) (pairs : List (Nat × List ℚ))
    (cats : List (String × String))
    (hnd : (pairs.map Prod.fst).Nodup) :
    (∀ (g : ReferenceItem → String) (emb : List ℚ) (topic : String),
      similarityQuery dist (refs.map (fun r => { r with industry := g r }))
          emb topic
        = similarityQuery dist refs emb topic) ∧
    ∀ r1 ∈ computeScores dist pairs cats refs,
      ∀ r2 ∈ computeScores dist pairs cats refs,
        r1.messageId = r2.messageId → r1.topic = r2.topic →
        r1.similarity = r2.similarity := by
  constructor
  · intro g emb topic
    simp only [similarityQuery, List.filter_map, List.map_map]
    rfl
  · intro r1 h1 r2 h2 hmid htop
    rcases mem_computeScores.mp h1 with ⟨mv1, hmv1, c1, hc1, hs1, hm1, ht1, _⟩
    rcases mem_computeScores.mp h2 with ⟨mv2, hmv2, c2, hc2, hs2, hm2, ht2, _⟩
    have hfst : mv1.1 = mv2.1 := by
      rw [← hm1, ← hm2, hmid]
    have hmv : mv1 = mv2 := List.inj_on_of_nodup_map hnd hmv1 hmv2 hfst
    have hc : c1.1 = c2.1 := by
      rw [← ht1, ← ht2, htop]
    rw [← hmv, ← hc] at hs2
    exact Option.some.inj (hs1.symm.trans hs2)

/-- Witness for `similarity_query_topic_only` at the concrete reference
table and message batch. -/
theorem similarity_query_topic_only_witness :
    (([(1, [1, 0]), (2, [0, 1])] : List (Nat × List ℚ)).map Prod.fst).Nodup ∧
    ((∀ (g : ReferenceItem → String) (emb : List ℚ) (topic : String),
      similarityQuery distEx (refsEx.map (fun r => { r with industry := g r }))
          emb topic
        = similarityQuery distEx refsEx emb topic) ∧
    ∀ r1 ∈ computeScores distEx [(1, [1, 0]), (2, [0, 1])]
        [("t", "a"), ("t", "b")] refsEx,
      ∀ r2 ∈ computeScores distEx [(1, [1, 0]), (2, [0, 1])]
          [("t", "a"), ("t", "b")] refsEx,
        r1.messageId = r2.messageId → r1.topic = r2.topic →
        r1.similarity = r2.similarity) :=
  ⟨by decide, similarity_query_topic_only distEx refsEx
    [(1, [1, 0]), (2, [0, 1])] [("t", "a"), ("t", "b")] (by decide)⟩

/-- C1 fails on the code: on a concrete run over reference items
`(t, a, [0, 1])` and `(t, b, [1, 0])` and a message embedded as `[1, 0]`,
the persisted similarity for the `(message 1, t, a)` triple is `1` — the
best match across ALL industries carrying topic `t`, because the
documented query filters reference rows by topic only — while the maximum
cosine similarity within the exact `(t, a)` category is `0`. -/
theorem similarity_not_per_category :
    (∃ r ∈ (runPipeline distEx aiEx nowEx storeEx).2.2.scores,
      r.messageId = 1 ∧ r.topic = "t" ∧ r.industry = "a" ∧
        r.similarity = some 1) ∧
    specCategoryBest distEx refsEx [1, 0] "t" "a" = some 0 ∧
    some (1 : ℚ) ≠ some (0 : ℚ) := by
  refine ⟨?_, by with_unfolding_all decide, by with_unfolding_all decide⟩
  with_unfolding_all decide

/-- C3 counterexample: on a concrete successful run with two selected
messages and two distinct `(topic, industry)` categories, the worker
issues four similarity queries — one per (message, category) pair — which
is neither one cross-batch query in total nor one query per distinct
category. -/
theorem per_pair_query_counterexample :
    (selectMessages nowEx storeEx.messages storeEx.sightings).length = 2 ∧
    (distinctPairs storeEx.refItems).length = 2 ∧
    (runPipeline distEx aiEx nowEx storeEx).2.1.countP Event.isSimQuery = 4 ∧
    ¬((runPipeline distEx aiEx nowEx storeEx).2.1.countP Event.isSimQuery = 1 ∨
      (runPipeline distEx aiEx nowEx storeEx).2.1.countP Event.isSimQuery
        = (distinctPairs storeEx.refItems).length) := by
  refine ⟨by with_unfolding_all decide, by decide, by with_unfolding_all decide,
    by with_unfolding_all decide⟩

/-- A successful embedding stage pairs exactly one vector per selected
message. -/
theorem embedBatch_length {ai : List String → Option (List (List ℚ))}
    {sel : List (Nat × String)} {pairs : List (Nat × List ℚ)}
    (h : embedBatch ai sel = some pairs) : pairs.length = sel.length := by
  unfold embedBatch at h
  split at h
  · cases h
  · rename_i vecs heq
    split at h
    · rename_i hlen
      cases h
      simp [List.length_zip, hlen]
    · cases h

/-- The scoring stage of the run issues `pairs.length * cats.length`
similarity queries. -/
theorem countP_simEvents (pairs : List (Nat × List ℚ))
    (cats : List (String × String)) :
    ((pairs.flatMap (fun mv => cats.map (fun c => Event.simQuery mv.2 c.1))).countP
      Event.isSimQuery) = pairs.length * cats.length := by
  induction pairs with
  | nil => simp
  | cons mv pairs ih =>
    have hall : ((cats.map (fun c => Event.simQuery mv.2 c.1)).countP
        Event.isSimQuery) = cats.length := by
      rw [← List.length_map (f := fun c => Event.simQuery mv.2 c.1) cats]
      refine List.countP_eq_length.mpr (fun e he => ?_)
      rcases List.mem_map.mp he with ⟨c, _, rfl⟩
      rfl
    simp only [List.flatMap_cons, List.countP_append, ih, List.length_cons, hall]
    ring

/-- C3 amended: the similarity scores of a successful run are computed by
one limit-1 query per (message, category) pair — over `m` selected
messages and `c` distinct categories the worker issues exactly `m * c`
similarity queries, not one cross-batch query and not one per
category. -/
theorem sim_query_count_per_pair (dist : List ℚ → List ℚ → ℚ)
    (ai : List String → Option (List (List ℚ))) (now : Int) (db : Store)
    (pairs : List (Nat × List ℚ))
    (hab : embedBatch ai (selectMessages now db.messages db.sightings)
      = some pairs)
    (hne : selectMessages now db.messages db.sightings ≠ []) :
    (runPipeline dist ai now db).2.1.countP Event.isSimQuery
      = (selectMessages now db.messages db.sightings).length
        * (distinctPairs db.refItems).length := by
  rcases runBody_cases dist ai now db with ⟨h, _⟩ | ⟨_, hab2, _⟩ |
    ⟨pairs2, _, hab2, heq⟩
  · exact absurd h hne
  · rw [hab] at hab2
    cases hab2
  · rw [hab] at hab2
    injection hab2 with hp
    subst hp
    have htr : (runPipeline dist ai now db).2.1
        = Event.connect :: ((runBody dist ai now db).2.1 ++ [Event.close]) := rfl
    rw [htr, heq]
    simp only [List.countP_cons, List.countP_append, countP_simEvents]
    rw [embedBatch_length hab]
    rfl

/-- Witness for `sim_query_count_per_pair` at the concrete run: 2 messages
and 2 categories yield 4 similarity queries. -/
theorem sim_query_count_per_pair_witness :
    embedBatch aiEx (selectMessages nowEx storeEx.messages storeEx.sightings)
      = some [(1, [1, 0]), (2, [0, 1])] ∧
    selectMessages nowEx storeEx.messages storeEx.sightings ≠ [] ∧
    (runPipeline distEx aiEx nowEx storeEx).2.1.countP Event.isSimQuery
      = (selectMessages nowEx storeEx.messages storeEx.sightings).length
        * (distinctPairs storeEx.refItems).length :=
  ⟨by with_unfolding_all decide, by decide,
    sim_query_count_per_pair distEx aiEx nowEx storeEx
      [(1, [1, 0]), (2, [0, 1])] (by with_unfolding_all decide) (by decide)⟩

/-- When the table of message ids has no duplicates, neither has the
selector's id projection. -/
theorem selectMessages_fst_nodup (now : Int) (ms : List Message)
    (ss : List FeedSighting) (hnodup : (ms.map Message.id).Nodup) :
    ((selectMessages now ms ss).map Prod.fst).Nodup := by
  have hd : ((eligibleRows now ms ss).map Prod.fst).Nodup := by
    refine (List.nodup_dedup _).map_on ?_
    intro x hx y hy hxy
    rcases mem_eligibleRows.mp (List.mem_dedup.mp (List.mem_dedup.mpr hx)) with
      ⟨m1, hm1, hid1, hc1, _⟩
    rcases mem_eligibleRows.mp (List.mem_dedup.mp (List.mem_dedup.mpr hy)) with
      ⟨m2, hm2, hid2, hc2, _⟩
    have hm : m1 = m2 :=
      List.inj_on_of_nodup_map hnodup hm1 hm2 (by rw [hid1, hid2, hxy])
    have hx2 : x = (m1.id, m1.content) := by
      rw [hid1, hc1]
    have hy2 : y = (m2.id, m2.content) := by
      rw [hid2, hc2]
    rw [hx2, hy2, hm]
  rw [selectMessages, List.map_take]
  exact (List.take_sublist _ _).nodup hd

/-- A lookup in an association list with duplicate-free keys finds the
value stored with its key. -/
theorem lookup_nodup_keys :
    ∀ (ps : List (Nat × List ℚ)) (k : Nat) (v : List ℚ),
      (ps.map Prod.fst).Nodup → (k, v) ∈ ps → ps.lookup k = some v := by
  intro ps
  induction ps with
  | nil =>
    intro k v _ hmem
    cases hmem
  | cons p ps ih =>
    intro k v hnd hmem
    obtain ⟨a, b⟩ := p
    rcases List.mem_cons.mp hmem with heq | hmem2
    · rw [Prod.mk.injEq] at heq
      rw [heq.1, heq.2]
      exact List.lookup_cons_self
    · have hk : k ≠ a := by
        intro hka
        have hin : k ∈ ps.map Prod.fst :=
          List.mem_map.mpr ⟨(k, v), hmem2, rfl⟩
        rw [hka] at hin
        simp only [List.map_cons, List.nodup_cons] at hnd
        exact hnd.1 hin
      rw [List.lookup_cons]
      have : (k == a) = false := beq_eq_false_iff_ne.mpr hk
      rw [this]
      exact ih k v (by simp only [List.map_cons, List.nodup_cons] at hnd; exact hnd.2)
        hmem2

/-- C6: a run with a non-empty selection invokes the embedding capability
exactly once, with the ordered batch of selected contents — at most 100
strings, none empty — and after a successful run every selected message's
persisted embedding equals the vector returned at the corresponding input
position. -/
theorem embedding_batch_contract (dist : List ℚ → List ℚ → ℚ)
    (ai : List String → Option (List (List ℚ))) (now : Int) (db : Store)
    (vecs : List (List ℚ))
    (hnodup : (db.messages.map Message.id).Nodup)
    (hai : ai ((selectMessages now db.messages db.sightings).map Prod.snd)
      = some vecs)
    (hlen : vecs.length = (selectMessages now db.messages db.sightings).length)
    (hne : selectMessages now db.messages db.sightings ≠ []) :
    ((selectMessages now db.messages db.sightings).map Prod.snd).length ≤ 100 ∧
    (∀ t ∈ (selectMessages now db.messages db.sightings).map Prod.snd,
      t ≠ "") ∧
    (runPipeline dist ai now db).2.1.countP Event.isAiCall = 1 ∧
    Event.aiCall ((selectMessages now db.messages db.sightings).map Prod.snd)
      ∈ (runPipeline dist ai now db).2.1 ∧
    ∀ p ∈ (selectMessages now db.messages db.sightings).zip vecs,
      ∃ m ∈ (runPipeline dist ai now db).2.2.messages,
        m.id = p.1.1 ∧ m.embedding = some p.2 := by
  have hab : embedBatch ai (selectMessages now db.messages db.sightings)
      = some (((selectMessages now db.messages db.sightings).zip vecs).map
        (fun p => (p.1.1, p.2))) := by
    unfold embedBatch
    rw [hai]
    simp [hlen]
  rcases runBody_cases dist ai now db with ⟨h, _⟩ | ⟨_, hab2, _⟩ |
    ⟨pairs2, _, hab2, heq⟩
  · exact absurd h hne
  · rw [hab] at hab2
    cases hab2
  · rw [hab] at hab2
    injection hab2 with hp
    subst hp
    refine ⟨?_, ?_, ?_, ?_, ?_⟩
    · rw [List.length_map]
      exact selectMessages_length_le now db.messages db.sightings
    · intro t ht
      rcases List.mem_map.mp ht with ⟨p, hp, rfl⟩
      rcases mem_selectMessages hp with ⟨m, _, _, hc, _, hcne, _⟩
      rw [← hc]
      exact hcne
    · have htr : (runPipeline dist ai now db).2.1
          = Event.connect :: ((runBody dist ai now db).2.1 ++ [Event.close]) :=
        rfl
      rw [htr, heq]
      have h0 : (((((selectMessages now db.messages db.sightings).zip vecs).map
          (fun p => (p.1.1, p.2))).flatMap (fun mv =>
            (distinctPairs db.refItems).map
              (fun c => Event.simQuery mv.2 c.1))).countP Event.isAiCall) = 0 := by
        refine List.countP_eq_zero.mpr (fun e he => ?_)
        rcases List.mem_flatMap.mp he with ⟨mv, _, hin⟩
        rcases List.mem_map.mp hin with ⟨c, _, rfl⟩
        simp [Event.isAiCall]
      simp only [List.countP_cons, List.countP_append, h0]
      rfl
    · have htr : (runPipeline dist ai now db).2.1
          = Event.connect :: ((runBody dist ai now db).2.1 ++ [Event.close]) :=
        rfl
      rw [htr, heq]
      simp
    · rintro ⟨pc, pv⟩ hp
      have hpsel : pc ∈ selectMessages now db.messages db.sightings :=
        (List.of_mem_zip hp).1
      rcases mem_selectMessages hpsel with ⟨m0, hm0, hid0, _, _, _, _⟩
      have hkeys : ((((selectMessages now db.messages db.sightings).zip vecs).map
          (fun q => (q.1.1, q.2))).map Prod.fst).Nodup := by
        have hmf : ((((selectMessages now db.messages db.sightings).zip vecs).map
            (fun q => (q.1.1, q.2))).map Prod.fst)
            = ((selectMessages now db.messages db.sightings).map Prod.fst) := by
          rw [List.map_map]
          rw [show (Prod.fst ∘ fun q : (Nat × String) × List ℚ => (q.1.1, q.2))
              = (Prod.fst ∘ (Prod.fst : (Nat × String) × List ℚ → Nat × String))
            from rfl]
          rw [← List.map_map, List.map_fst_zip _ _ (by rw [hlen])]
        rw [hmf]
        exact selectMessages_fst_nodup now db.messages db.sightings hnodup
      have hmempair : (pc.1, pv)
          ∈ (((selectMessages now db.messages db.sightings).zip vecs).map
            (fun q => (q.1.1, q.2))) :=
        List.mem_map.mpr ⟨(pc, pv), hp, rfl⟩
      have hlook : ((((selectMessages now db.messages db.sightings).zip vecs).map
          (fun q => (q.1.1, q.2))).lookup m0.id) = some pv := by
        rw [hid0]
        exact lookup_nodup_keys _ pc.1 pv hkeys hmempair
      have hfin : (runPipeline dist ai now db).2.2.messages
          = writeEmbeddings (((selectMessages now db.messages db.sightings).zip
              vecs).map (fun q => (q.1.1, q.2))) db.messages := by
        have h5 : (runPipeline dist ai now db).2.2 = (runBody dist ai now db).2.2 :=
          rfl
        rw [h5, heq]
      rw [hfin]
      refine ⟨{ m0 with embedding := some pv }, ?_, hid0, rfl⟩
      refine List.mem_map.mpr ⟨m0, hm0, ?_⟩
      rw [hlook]

/-- Witness for `embedding_batch_contract` at the concrete run. -/
theorem embedding_batch_contract_witness :
    ((storeEx.messages.map Message.id).Nodup ∧
      aiEx ((selectMessages nowEx storeEx.messages storeEx.sightings).map
        Prod.snd) = some [[1, 0], [0, 1]] ∧
      ([[1, 0], [0, 1]] : List (List ℚ)).length
        = (selectMessages nowEx storeEx.messages storeEx.sightings).length ∧
      selectMessages nowEx storeEx.messages storeEx.sightings ≠ []) ∧
    (((selectMessages nowEx storeEx.messages storeEx.sightings).map
        Prod.snd).length ≤ 100 ∧
      (∀ t ∈ (selectMessages nowEx storeEx.messages storeEx.sightings).map
        Prod.snd, t ≠ "") ∧
      (runPipeline distEx aiEx nowEx storeEx).2.1.countP Event.isAiCall = 1 ∧
      Event.aiCall ((selectMessages nowEx storeEx.messages
          storeEx.sightings).map Prod.snd)
        ∈ (runPipeline distEx aiEx nowEx storeEx).2.1 ∧
      ∀ p ∈ (selectMessages nowEx storeEx.messages storeEx.sightings).zip
          [[1, 0], [0, 1]],
        ∃ m ∈ (runPipeline distEx aiEx nowEx storeEx).2.2.messages,
          m.id = p.1.1 ∧ m.embedding = some p.2) :=
  ⟨⟨by decide, by decide, by decide, by decide⟩,
    embedding_batch_contract distEx aiEx nowEx storeEx [[1, 0], [0, 1]]
      (by decide) (by decide) (by decide) (by decide)⟩
